import Mathlib

/-!
Verification of the substyle style-resolution engine of this repository.

The repository ships the engine's README, whose core is the mapping
(lines 5-10 of the README):

  ({ style, className }, key) => ({
    className: key ? className && `${className}__${key}` : className,
    style: key ? style && style[key] : style
  })

together with worked examples for blocks, elements, modifiers, chaining
and default styles.  The full engine (selector normalisation, BEM class
name derivation, deep-merge style derivation with modifier layers, and
the chaining wrapper) is described by the specification and the README
examples; it is embedded below, and the README examples are used to
validate the embedding.
-/

/-- Primitive style property value: a CSS-like string or a number. -/
inductive Prim where
  | str : String → Prim
  | num : Int → Prim

/-- Style tree value: either a primitive style property value or a nested
sub-tree (an element's or a modifier's sub-styles). -/
inductive StyleVal where
  | prim : Prim → StyleVal
  | tree : List (String × StyleVal) → StyleVal

/-- StyleTree: a finite mapping from string keys to style values, embedded
as an association list so that JS object key order is preserved. -/
abbrev StyleTree := List (String × StyleVal)

/-- Lookup of a key in a style tree (JS property access `t[k]`):
first matching entry, `Option.none` when the key is absent. -/
def lookupTree : StyleTree → String → Option StyleVal
  | [], _ => Option.none
  | (k', v) :: rest, k => if k' = k then some v else lookupTree rest k

/-- Test for the primitive case of a style value. -/
def isPrim : StyleVal → Bool
  | StyleVal.prim _ => true
  | StyleVal.tree _ => false

/-- Keep only the own primitive entries of a style tree, dropping the
nested element/modifier sub-trees. -/
def filterPrims (t : StyleTree) : StyleTree :=
  t.filter (fun e => isPrim e.2)

/-- Keys of a style tree are pairwise distinct (JS objects cannot hold
duplicate keys). -/
abbrev keysNodup (t : StyleTree) : Prop :=
  (t.map Prod.fst).Nodup

mutual
/-- Modelled from the spec: lodash-style deep merge of one source value
over a destination value (the engine's merge function is not in the
repository sources).  When both are sub-trees the merge recurses;
otherwise the source value overwrites the destination value. -/
def mergeVal : StyleVal → StyleVal → StyleVal
  | StyleVal.tree a, StyleVal.tree b => StyleVal.tree (mergeTrees a b)
  | _, s => s
termination_by a b => (sizeOf b, 0)

/-- Merge a single source entry into a destination tree: an existing key
keeps its position and its value is merged; a new key is appended. -/
def mergeEntry : StyleTree → String → StyleVal → StyleTree
  | [], k, v => [(k, v)]
  | (k', v') :: rest, k, v =>
      if k' = k then (k', mergeVal v' v) :: rest
      else (k', v') :: mergeEntry rest k v
termination_by dst k v => (sizeOf v, 1 + sizeOf dst)

/-- Modelled from the spec: deep merge of a source tree over a
destination tree, entry by entry in source order. -/
def mergeTrees : StyleTree → StyleTree → StyleTree
  | dst, [] => dst
  | dst, (k, v) :: rest => mergeTrees (mergeEntry dst k v) rest
termination_by dst src => (sizeOf src, 0)
end

/-- Props of a resolution call: the optional style tree and the optional
class-name base supplied by the component's caller. -/
structure Props where
  style : Option StyleTree
  className : Option String

/-- Result of the core README mapping: a possibly absent class name and a
possibly absent style value. -/
structure CoreOut where
  className : Option String
  style : Option StyleVal

/-- The core mapping from the README (lines 5-10):
`({ style, className }, key) => ({ className: key ? className && ...`.
JS truthiness of the class name is modelled explicitly: an absent
class name stays absent, an empty string short-circuits `&&` and is
returned unchanged, otherwise the element class is derived. -/
def substyleCore (props : Props) (key : Option String) : CoreOut :=
  match key with
  | Option.none =>
      { className := props.className
        style := props.style.map StyleVal.tree }
  | some k =>
      { className :=
          match props.className with
          | Option.none => Option.none
          | some c => if c = "" then some "" else some (c ++ "__" ++ k)
        style :=
          match props.style with
          | Option.none => Option.none
          | some t => lookupTree t k }

/-- A key denotes a modifier when it starts with the reserved `&` marker. -/
def isModKey (s : String) : Bool :=
  match s.data with
  | [] => false
  | c :: _ => c = '&'

/-- Drop the leading `&` marker of a modifier key. -/
def dropMark (s : String) : String :=
  match s.data with
  | [] => s
  | _ :: rest => String.mk rest

/-- Selector argument of a resolution call: absent, a single key, an
ordered sequence of keys, or a modifier map from keys to truthiness. -/
inductive Selector where
  | none : Selector
  | str : String → Selector
  | seq : List String → Selector
  | map : List (String × Bool) → Selector

/-- Split a list of keys into element keys and modifier keys, preserving
order. -/
def classify (ks : List String) : List String × List String :=
  (ks.filter (fun k => !(isModKey k)), ks.filter (fun k => isModKey k))

/-- Modelled from the spec: the Selector Normalizer (not in the
repository sources).  Turns a selector into the canonical pair of
ordered element keys and active modifier keys; falsy modifier-map
entries are dropped entirely. -/
def normalizeSel : Selector → List String × List String
  | Selector.none => ([], [])
  | Selector.str s => if isModKey s then ([], [s]) else ([s], [])
  | Selector.seq ks => classify ks
  | Selector.map entries => classify ((entries.filter (fun e => e.2)).map Prod.fst)

/-- Join class-name tokens with single spaces. -/
def joinTokens : List String → String
  | [] => ""
  | [t] => t
  | t :: rest => t ++ " " ++ joinTokens rest

/-- Modelled from the spec: the Class Name Deriver (not in the repository
sources).  An absent base derives no class name; with element keys the
tokens are `base__key` in order and modifiers are ignored; without
element keys the block token `base` is followed by one `base--modifier`
token per active modifier. -/
def deriveClassName (base : Option String) (elementKeys modifiers : List String) :
    Option String :=
  match base with
  | Option.none => Option.none
  | some b =>
      if elementKeys.isEmpty then
        some (joinTokens (b :: modifiers.map (fun m => b ++ "--" ++ dropMark m)))
      else
        some (joinTokens (elementKeys.map (fun k => b ++ "__" ++ k)))

/-- One element layer of the Style Deriver: merge the sub-tree found at
element key `k` of `t`, when present. -/
def elemLayer (t : StyleTree) (acc : StyleTree) (k : String) : StyleTree :=
  match lookupTree t k with
  | some (StyleVal.tree sub) => mergeTrees acc sub
  | _ => acc

/-- One modifier layer of the Style Deriver: for a block resolution merge
the modifier sub-tree's own primitive entries; for an element resolution
merge the modifier sub-tree's entry for each selected element key. -/
def modLayer (t : StyleTree) (elementKeys : List String) (acc : StyleTree)
    (m : String) : StyleTree :=
  match lookupTree t m with
  | some (StyleVal.tree mt) =>
      if elementKeys.isEmpty then mergeTrees acc (filterPrims mt)
      else elementKeys.foldl (elemLayer mt) acc
  | _ => acc

/-- Modelled from the spec: the Style Deriver (not in the repository
sources).  Layers, each deep-merged over the previous: the bound default
style, then (for a block resolution) the tree's own primitive entries,
then the sub-tree of each selected element key in order, then each
active modifier's overrides; unconsumed sub-trees are excluded, so the
output is flat. -/
def deriveStyle (styleTree : Option StyleTree) (elementKeys modifiers : List String)
    (defaultStyle : Option StyleTree) : StyleTree :=
  let t := styleTree.getD []
  let start := defaultStyle.getD []
  let withOwn :=
    if elementKeys.isEmpty then mergeTrees start (filterPrims t) else start
  let withElems := elementKeys.foldl (elemLayer t) withOwn
  let withMods := modifiers.foldl (modLayer t elementKeys) withElems
  filterPrims withMods

/-- Result of a full resolution: the resolved class name and the resolved
flat style object. -/
structure Resolved where
  className : Option String
  style : StyleTree

/-- Modelled from the spec: the engine's entry point (not in the
repository sources).  Normalizes the selector, then derives class name
and style independently; `defaultStyle` is the style bound by a chaining
wrapper, absent on a first call. -/
def resolve (defaultStyle : Option StyleTree) (props : Props) (sel : Selector) :
    Resolved :=
  let norm := normalizeSel sel
  { className := deriveClassName props.className norm.1 norm.2
    style := deriveStyle props.style norm.1 norm.2 defaultStyle }

/-- Modelled from the spec: the Chaining Wrapper (not in the repository
sources).  A resolution also yields a preconfigured engine whose default
style is the resolved style just computed and whose class-name base is
the resolved class name just computed. -/
structure SubstyleFn where
  defaultStyle : Option StyleTree
  base : Option String

/-- Build the chained wrapper of a resolution call. -/
def chainOf (defaultStyle : Option StyleTree) (props : Props) (sel : Selector) :
    SubstyleFn :=
  let r := resolve defaultStyle props sel
  { defaultStyle := some r.style, base := r.className }

/-! Helper lemmas about lookup, merge and filtering. -/

theorem mergeVal_prim (x : StyleVal) (v : Prim) :
    mergeVal x (StyleVal.prim v) = StyleVal.prim v := by
  cases x <;> simp [mergeVal]

theorem mergeTrees_nil (dst : StyleTree) : mergeTrees dst [] = dst := by
  simp [mergeTrees]

theorem mergeTrees_cons (dst : StyleTree) (k : String) (v : StyleVal)
    (rest : StyleTree) :
    mergeTrees dst ((k, v) :: rest) = mergeTrees (mergeEntry dst k v) rest := by
  simp [mergeTrees]

theorem lookup_mergeEntry_prim (dst : StyleTree) (k : String) (v : Prim) :
    lookupTree (mergeEntry dst k (StyleVal.prim v)) k = some (StyleVal.prim v) := by
  induction dst with
  | nil => simp [mergeEntry, lookupTree]
  | cons e rest ih =>
      obtain ⟨k', v'⟩ := e
      by_cases h : k' = k
      · subst h
        simp [mergeEntry, lookupTree, mergeVal_prim]
      · simp [mergeEntry, h, lookupTree, ih]

theorem lookup_mergeEntry_of_ne (dst : StyleTree) (ke k : String) (v : StyleVal)
    (h : ke ≠ k) :
    lookupTree (mergeEntry dst ke v) k = lookupTree dst k := by
  induction dst with
  | nil => simp [mergeEntry, lookupTree, h]
  | cons e rest ih =>
      obtain ⟨k', v'⟩ := e
      by_cases h2 : k' = ke
      · subst h2
        simp [mergeEntry, lookupTree, h]
      · simp only [mergeEntry, if_neg h2]
        by_cases h3 : k' = k
        · simp [lookupTree, h3]
        · simp [lookupTree, h3, ih]

theorem lookup_none_of_not_mem (t : StyleTree) (k : String)
    (h : k ∉ t.map Prod.fst) :
    lookupTree t k = Option.none := by
  induction t with
  | nil => rfl
  | cons e rest ih =>
      obtain ⟨k', v'⟩ := e
      simp only [List.map_cons, List.mem_cons] at h
      push_neg at h
      have hne : k' ≠ k := fun hh => h.1 hh.symm
      simp [lookupTree, hne, ih h.2]

theorem lookup_mergeTrees_of_none (dst src : StyleTree) (k : String)
    (h : lookupTree src k = Option.none) :
    lookupTree (mergeTrees dst src) k = lookupTree dst k := by
  induction src generalizing dst with
  | nil => simp [mergeTrees_nil]
  | cons e rest ih =>
      obtain ⟨ke, ve⟩ := e
      have hne : ke ≠ k := by
        intro hh
        subst hh
        simp [lookupTree] at h
      have hrest : lookupTree rest k = Option.none := by
        simpa [lookupTree, hne] using h
      rw [mergeTrees_cons, ih _ hrest, lookup_mergeEntry_of_ne _ _ _ _ hne]

theorem lookup_mergeTrees_prim (dst src : StyleTree) (k : String) (v : Prim)
    (hnd : keysNodup src) (h : lookupTree src k = some (StyleVal.prim v)) :
    lookupTree (mergeTrees dst src) k = some (StyleVal.prim v) := by
  induction src generalizing dst with
  | nil => simp [lookupTree] at h
  | cons e rest ih =>
      obtain ⟨ke, ve⟩ := e
      by_cases hk : ke = k
      · subst hk
        have hv : ve = StyleVal.prim v := by
          have := h
          simp [lookupTree] at this
          exact this
        subst hv
        rw [keysNodup, List.map_cons, List.nodup_cons] at hnd
        have hrest : lookupTree rest ke = Option.none :=
          lookup_none_of_not_mem rest ke hnd.1
        rw [mergeTrees_cons, lookup_mergeTrees_of_none _ _ _ hrest]
        exact lookup_mergeEntry_prim dst ke v
      · have hnd' : keysNodup rest := by
          rw [keysNodup, List.map_cons, List.nodup_cons] at hnd
          exact hnd.2
        have h' : lookupTree rest k = some (StyleVal.prim v) := by
          simpa [lookupTree, hk] using h
        rw [mergeTrees_cons]
        exact ih _ hnd' h'

theorem lookup_filterPrims_prim (t : StyleTree) (k : String) (v : Prim)
    (h : lookupTree t k = some (StyleVal.prim v)) :
    lookupTree (filterPrims t) k = some (StyleVal.prim v) := by
  induction t with
  | nil => simp [lookupTree] at h
  | cons e rest ih =>
      obtain ⟨k', v'⟩ := e
      by_cases hk : k' = k
      · subst hk
        have hv : v' = StyleVal.prim v := by
          have := h
          simp [lookupTree] at this
          exact this
        subst hv
        simp [filterPrims, List.filter, isPrim, lookupTree]
      · have h' : lookupTree rest k = some (StyleVal.prim v) := by
          simpa [lookupTree, hk] using h
        cases v' with
        | prim p =>
            simp [filterPrims, List.filter, isPrim, lookupTree, hk] at ih ⊢
            exact ih h'
        | tree s =>
            simp [filterPrims, List.filter, isPrim] at ih ⊢
            exact ih h'

theorem keysNodup_filterPrims (t : StyleTree) (h : keysNodup t) :
    keysNodup (filterPrims t) :=
  List.Sublist.nodup ((List.filter_sublist t).map Prod.fst) h

theorem mem_filterPrims (e : String × StyleVal) (t : StyleTree)
    (h : e ∈ filterPrims t) : isPrim e.2 = true := by
  rw [filterPrims, List.mem_filter] at h
  exact h.2

theorem filterPrims_idem (t : StyleTree) :
    filterPrims (filterPrims t) = filterPrims t := by
  simp [filterPrims, List.filter_filter]

theorem deriveStyle_eq (st : Option StyleTree) (eks mods : List String)
    (d : Option StyleTree) :
    deriveStyle st eks mods d =
      filterPrims
        (mods.foldl (modLayer (st.getD []) eks)
          (eks.foldl (elemLayer (st.getD []))
            (if eks.isEmpty then mergeTrees (d.getD []) (filterPrims (st.getD []))
             else d.getD []))) := rfl

theorem filterPrims_deriveStyle (st : Option StyleTree) (eks mods : List String)
    (d : Option StyleTree) :
    filterPrims (deriveStyle st eks mods d) = deriveStyle st eks mods d := by
  rw [deriveStyle_eq, filterPrims_idem]

theorem elemLayer_nil (acc : StyleTree) (k : String) :
    elemLayer [] acc k = acc := rfl

theorem modLayer_nil (eks : List String) (acc : StyleTree) (m : String) :
    modLayer [] eks acc m = acc := rfl

theorem foldl_fixed {α : Type} (f : StyleTree → α → StyleTree)
    (hf : ∀ acc x, f acc x = acc) :
    ∀ (l : List α) (acc : StyleTree), List.foldl f acc l = acc := by
  intro l
  induction l with
  | nil => intro acc; rfl
  | cons x rest ih => intro acc; rw [List.foldl_cons, hf, ih]

theorem deriveStyle_all_absent (eks mods : List String) :
    deriveStyle Option.none eks mods Option.none = [] := by
  rw [deriveStyle_eq]
  simp only [Option.getD_none]
  have h1 : (if eks.isEmpty then mergeTrees [] (filterPrims []) else ([] : StyleTree))
      = [] := by
    cases eks <;> simp [mergeTrees_nil, filterPrims]
  rw [h1, foldl_fixed _ (elemLayer_nil), foldl_fixed _ (modLayer_nil eks)]
  rfl

/-! Claim theorems. -/

/-- C2: For every style tree and every selector, the resolved style returned
by a resolution call is flat: every entry of the output carries a primitive
value, so no nested element/modifier sub-tree survives into the output. -/
theorem resolve_style_flat (d : Option StyleTree) (props : Props) (sel : Selector)
    (e : String × StyleVal) (he : e ∈ (resolve d props sel).style) :
    isPrim e.2 = true := by
  have hs : (resolve d props sel).style =
      deriveStyle props.style (normalizeSel sel).1 (normalizeSel sel).2 d := rfl
  rw [hs, ← filterPrims_deriveStyle] at he
  exact mem_filterPrims e _ he

/-- Witness for C2 at a concrete resolution whose output is nonempty. -/
theorem resolve_style_flat_wit :
    isPrim (StyleVal.prim (Prim.num 1)) = true :=
  resolve_style_flat (some [("a", StyleVal.prim (Prim.num 1))])
    ⟨Option.none, Option.none⟩ (Selector.str "k") ("a", StyleVal.prim (Prim.num 1))
    (List.Mem.head _)

/-- C3: For a present non-empty class-name base `b`, a present style tree `t`
and a single non-modifier element key `k`, the core mapping resolves the class
name to `b ++ "__" ++ k` and the style to the sub-tree `t[k]` (absent when `t`
has no entry at `k`); with an absent selector it resolves the class name to
`b` itself and the style to `t`'s own entries. -/
theorem core_mapping_element (b k : String) (t : StyleTree)
    (hb : b ≠ "") (hk : isModKey k = false) :
    (substyleCore ⟨some t, some b⟩ (some k)).className = some (b ++ "__" ++ k)
    ∧ (substyleCore ⟨some t, some b⟩ (some k)).style = lookupTree t k
    ∧ (substyleCore ⟨some t, some b⟩ Option.none).className = some b
    ∧ (substyleCore ⟨some t, some b⟩ Option.none).style = some (StyleVal.tree t) := by
  refine ⟨?_, rfl, rfl, rfl⟩
  simp [substyleCore, hb]

/-- Witness for C3 at a concrete base, key and tree. -/
theorem core_mapping_element_wit :
    (substyleCore ⟨some [("a", StyleVal.prim (Prim.num 1))], some "foo"⟩
        (some "bar")).className = some ("foo" ++ "__" ++ "bar")
    ∧ (substyleCore ⟨some [("a", StyleVal.prim (Prim.num 1))], some "foo"⟩
        (some "bar")).style = lookupTree [("a", StyleVal.prim (Prim.num 1))] "bar"
    ∧ (substyleCore ⟨some [("a", StyleVal.prim (Prim.num 1))], some "foo"⟩
        Option.none).className = some "foo"
    ∧ (substyleCore ⟨some [("a", StyleVal.prim (Prim.num 1))], some "foo"⟩
        Option.none).style = some (StyleVal.tree [("a", StyleVal.prim (Prim.num 1))]) :=
  core_mapping_element "foo" "bar" [("a", StyleVal.prim (Prim.num 1))]
    (by decide) rfl

/-- C5: For every present class-name base, a block resolution (empty element
keys) with one active modifier yields the block token followed by the
block--modifier token; in particular the class name derived from base
"block" with active modifier "&disabled" is "block block--disabled". -/
theorem block_modifier_class :
    (∀ (b m : String), isModKey m = true →
        deriveClassName (some b) [] [m] =
          some (b ++ " " ++ (b ++ "--" ++ dropMark m)))
    ∧ deriveClassName (some "block") [] ["&disabled"]
        = some "block block--disabled" :=
  ⟨fun _ _ _ => rfl, rfl⟩

/-- Witness for C5 at a concrete base and modifier. -/
theorem block_modifier_class_wit :
    deriveClassName (some "b") [] ["&x"]
      = some ("b" ++ " " ++ ("b" ++ "--" ++ dropMark "&x")) :=
  block_modifier_class.1 "b" "&x" rfl

/-- C6: For every present class-name base and non-empty element keys, the
active modifiers contribute no class-name tokens; in particular base
"block" with element keys ["x", "y"] and active modifier "&mod" yields
exactly "block__x block__y". -/
theorem element_keys_ignore_modifiers :
    (∀ (b : String) (ks ms : List String), ks ≠ [] →
        deriveClassName (some b) ks ms = deriveClassName (some b) ks [])
    ∧ deriveClassName (some "block") ["x", "y"] ["&mod"]
        = some "block__x block__y" := by
  constructor
  · intro b ks ms h
    cases ks with
    | nil => exact absurd rfl h
    | cons k rest => rfl
  · rfl

/-- Witness for C6 at a concrete base, element key list and modifier. -/
theorem element_keys_ignore_modifiers_wit :
    deriveClassName (some "b") ["k"] ["&m"] = deriveClassName (some "b") ["k"] [] :=
  element_keys_ignore_modifiers.1 "b" ["k"] ["&m"] (by simp)

/-- C9: A falsy modifier-map entry never affects the output: resolving with
the selector map (k ↦ false) yields the same resolved class name and style
as resolving with an absent selector, for every default style, props and
key. -/
theorem falsy_entry_noop (d : Option StyleTree) (props : Props) (k : String) :
    resolve d props (Selector.map [(k, false)]) = resolve d props Selector.none := rfl

/-- C10: An empty-string class-name base short-circuits like a falsy value in
the core mapping: with className "" and an element key selector the resolved
class name is "" itself, not "" ++ "__" ++ k. -/
theorem empty_base_short (t : Option StyleTree) (k : String) :
    (substyleCore ⟨t, some ""⟩ (some k)).className = some ""
    ∧ (substyleCore ⟨t, some ""⟩ (some k)).className ≠ some ("" ++ "__" ++ k) := by
  refine ⟨rfl, ?_⟩
  have hcn : (substyleCore ⟨t, some ""⟩ (some k)).className = some "" := rfl
  rw [hcn]
  intro h
  have h2 : ("" : String) = "" ++ "__" ++ k := by
    injection h
  have h3 := congrArg String.length h2
  simp [String.length_append] at h3
  have h4 : ("__" : String).length = 2 := rfl
  omega

/-- C4: Later element keys override earlier ones: for a sequence selector
with element keys [a, b] whose sub-trees both define property `p`, the
resolved value at `p` is the one from `t[b]`. -/
theorem later_element_key_wins (t ta tb : StyleTree) (a b p : String) (v : Prim)
    (w : StyleVal) (ha : isModKey a = false) (hb : isModKey b = false)
    (hta : lookupTree t a = some (StyleVal.tree ta))
    (htb : lookupTree t b = some (StyleVal.tree tb))
    (hnd : keysNodup tb)
    (hpa : lookupTree ta p = some w)
    (hpb : lookupTree tb p = some (StyleVal.prim v)) :
    lookupTree (resolve Option.none ⟨some t, Option.none⟩
        (Selector.seq [a, b])).style p
      = some (StyleVal.prim v) := by
  have hn : normalizeSel (Selector.seq [a, b]) = ([a, b], []) := by
    simp [normalizeSel, classify, ha, hb]
  have hstyle : (resolve Option.none ⟨some t, Option.none⟩
      (Selector.seq [a, b])).style = deriveStyle (some t) [a, b] [] Option.none := by
    simp [resolve, hn]
  rw [hstyle]
  have hred : deriveStyle (some t) [a, b] [] Option.none
      = filterPrims (elemLayer t (elemLayer t [] a) b) := rfl
  rw [hred]
  have helb : elemLayer t (elemLayer t [] a) b = mergeTrees (elemLayer t [] a) tb := by
    simp [elemLayer, htb]
  rw [helb]
  exact lookup_filterPrims_prim _ p v (lookup_mergeTrees_prim _ _ p v hnd hpb)

/-- Witness for C4: element keys ["x", "y"] both define "p"; the value of
"y" wins. -/
theorem later_element_key_wins_wit :
    lookupTree (resolve Option.none
        ⟨some [("x", StyleVal.tree [("p", StyleVal.prim (Prim.num 1))]),
               ("y", StyleVal.tree [("p", StyleVal.prim (Prim.num 2))])],
         Option.none⟩
        (Selector.seq ["x", "y"])).style "p"
      = some (StyleVal.prim (Prim.num 2)) :=
  later_element_key_wins
    [("x", StyleVal.tree [("p", StyleVal.prim (Prim.num 1))]),
     ("y", StyleVal.tree [("p", StyleVal.prim (Prim.num 2))])]
    [("p", StyleVal.prim (Prim.num 1))]
    [("p", StyleVal.prim (Prim.num 2))]
    "x" "y" "p" (Prim.num 2) (StyleVal.prim (Prim.num 1))
    rfl rfl rfl rfl (by simp [keysNodup]) rfl rfl

/-- C7: Chaining base-case identity: resolving (props, "bar") and then
resolving the returned preconfigured wrapper with no selector (and no own
style) yields the same resolved style as the first call; the wrapper holds
the just-computed resolved style as its bound default. -/
theorem chain_base_identity (props : Props) :
    (resolve (chainOf Option.none props (Selector.str "bar")).defaultStyle
        ⟨Option.none, Option.none⟩ Selector.none).style
      = (resolve Option.none props (Selector.str "bar")).style := by
  have hchain : (chainOf Option.none props (Selector.str "bar")).defaultStyle
      = some (resolve Option.none props (Selector.str "bar")).style := rfl
  rw [hchain]
  have hred : (resolve (some (resolve Option.none props (Selector.str "bar")).style)
      ⟨Option.none, Option.none⟩ Selector.none).style
      = filterPrims
          (mergeTrees (resolve Option.none props (Selector.str "bar")).style []) := rfl
  rw [hred, mergeTrees_nil]
  exact filterPrims_deriveStyle props.style ["bar"] [] Option.none

/-- C8: Absent-input tolerance: all-absent props resolve to an absent class
name and an empty style for every selector; an element key missing from a
present style tree resolves to the empty style; the core mapping with an
absent selector passes both props through, and with all-absent props it
yields absent outputs.  All resolution functions of the embedding are total,
so no input can raise an error. -/
theorem absent_input_tolerance :
    (∀ sel : Selector,
        (resolve Option.none ⟨Option.none, Option.none⟩ sel).className = Option.none
        ∧ (resolve Option.none ⟨Option.none, Option.none⟩ sel).style = [])
    ∧ (∀ (t : StyleTree) (k : String), isModKey k = false →
        lookupTree t k = Option.none →
        (resolve Option.none ⟨some t, Option.none⟩ (Selector.str k)).style = [])
    ∧ (∀ props : Props, substyleCore props Option.none
        = ⟨props.className, props.style.map StyleVal.tree⟩)
    ∧ (∀ k : String,
        substyleCore ⟨Option.none, Option.none⟩ (some k)
          = ⟨Option.none, Option.none⟩) := by
  refine ⟨?_, ?_, fun _ => rfl, fun _ => rfl⟩
  · intro sel
    exact ⟨rfl, deriveStyle_all_absent _ _⟩
  · intro t k hk hlk
    have hn : normalizeSel (Selector.str k) = ([k], []) := by
      simp [normalizeSel, hk]
    have hstyle : (resolve Option.none ⟨some t, Option.none⟩ (Selector.str k)).style
        = deriveStyle (some t) [k] [] Option.none := by
      simp [resolve, hn]
    rw [hstyle]
    have hred : deriveStyle (some t) [k] [] Option.none
        = filterPrims (elemLayer t [] k) := rfl
    rw [hred]
    have hel : elemLayer t [] k = [] := by
      simp [elemLayer, hlk]
    rw [hel]
    rfl

/-- Witness for C8: a key absent from a concrete style tree resolves to the
empty style. -/
theorem absent_input_tolerance_wit :
    (resolve Option.none ⟨some [("a", StyleVal.prim (Prim.num 1))], Option.none⟩
        (Selector.str "k")).style = [] :=
  absent_input_tolerance.2.1 [("a", StyleVal.prim (Prim.num 1))] "k" rfl rfl

/-- C1: Four-layer precedence (default < base block < selected elements <
active modifiers).  For any style property present in both the bound default
style and an active modifier layer (and possibly also in the base-block or
selected-element layers) the resolved value is the modifier layer's value,
and each lower layer in turn overrides the layers beneath it: part one is
the block resolution (modifier over base block and default), part two the
element resolution (modifier over selected element and default), part three
the selected element over the default, part four the base block over the
default. -/
theorem style_precedence :
    (∀ (t d mt : StyleTree) (m p : String) (v : Prim) (w : StyleVal),
        isModKey m = true →
        lookupTree t m = some (StyleVal.tree mt) →
        keysNodup mt →
        lookupTree mt p = some (StyleVal.prim v) →
        lookupTree d p = some w →
        lookupTree (resolve (some d) ⟨some t, Option.none⟩
            (Selector.map [(m, true)])).style p = some (StyleVal.prim v))
    ∧ (∀ (t d te mt mte : StyleTree) (e m p : String) (v : Prim) (w w2 : StyleVal),
        isModKey e = false →
        isModKey m = true →
        lookupTree t e = some (StyleVal.tree te) →
        lookupTree t m = some (StyleVal.tree mt) →
        lookupTree mt e = some (StyleVal.tree mte) →
        keysNodup mte →
        lookupTree mte p = some (StyleVal.prim v) →
        lookupTree te p = some w2 →
        lookupTree d p = some w →
        lookupTree (resolve (some d) ⟨some t, Option.none⟩
            (Selector.map [(e, true), (m, true)])).style p = some (StyleVal.prim v))
    ∧ (∀ (t d te : StyleTree) (e p : String) (v : Prim) (w : StyleVal),
        isModKey e = false →
        lookupTree t e = some (StyleVal.tree te) →
        keysNodup te →
        lookupTree te p = some (StyleVal.prim v) →
        lookupTree d p = some w →
        lookupTree (resolve (some d) ⟨some t, Option.none⟩
            (Selector.str e)).style p = some (StyleVal.prim v))
    ∧ (∀ (t d : StyleTree) (p : String) (v : Prim) (w : StyleVal),
        keysNodup t →
        lookupTree t p = some (StyleVal.prim v) →
        lookupTree d p = some w →
        lookupTree (resolve (some d) ⟨some t, Option.none⟩
            Selector.none).style p = some (StyleVal.prim v)) := by
  refine ⟨?_, ?_, ?_, ?_⟩
  · intro t d mt m p v w hm hmt hnd hp hd
    have hn : normalizeSel (Selector.map [(m, true)]) = ([], [m]) := by
      simp [normalizeSel, classify, hm]
    have hstyle : (resolve (some d) ⟨some t, Option.none⟩
        (Selector.map [(m, true)])).style = deriveStyle (some t) [] [m] (some d) := by
      simp [resolve, hn]
    rw [hstyle]
    have hred : deriveStyle (some t) [] [m] (some d)
        = filterPrims (modLayer t [] (mergeTrees d (filterPrims t)) m) := rfl
    rw [hred]
    have hmod : modLayer t [] (mergeTrees d (filterPrims t)) m
        = mergeTrees (mergeTrees d (filterPrims t)) (filterPrims mt) := by
      simp [modLayer, hmt]
    rw [hmod]
    exact lookup_filterPrims_prim _ p v
      (lookup_mergeTrees_prim _ _ p v (keysNodup_filterPrims mt hnd)
        (lookup_filterPrims_prim mt p v hp))
  · intro t d te mt mte e m p v w w2 he hm hte htm hmte hnd hp hp2 hd
    have hn : normalizeSel (Selector.map [(e, true), (m, true)]) = ([e], [m]) := by
      simp [normalizeSel, classify, he, hm]
    have hstyle : (resolve (some d) ⟨some t, Option.none⟩
        (Selector.map [(e, true), (m, true)])).style
        = deriveStyle (some t) [e] [m] (some d) := by
      simp [resolve, hn]
    rw [hstyle]
    have hred : deriveStyle (some t) [e] [m] (some d)
        = filterPrims (modLayer t [e] (elemLayer t d e) m) := rfl
    rw [hred]
    have hmod : modLayer t [e] (elemLayer t d e) m
        = elemLayer mt (elemLayer t d e) e := by
      simp [modLayer, htm]
    have hmel : elemLayer mt (elemLayer t d e) e
        = mergeTrees (elemLayer t d e) mte := by
      simp [elemLayer, hmte]
    rw [hmod, hmel]
    exact lookup_filterPrims_prim _ p v (lookup_mergeTrees_prim _ _ p v hnd hp)
  · intro t d te e p v w he hte hnd hp hd
    have hn : normalizeSel (Selector.str e) = ([e], []) := by
      simp [normalizeSel, he]
    have hstyle : (resolve (some d) ⟨some t, Option.none⟩
        (Selector.str e)).style = deriveStyle (some t) [e] [] (some d) := by
      simp [resolve, hn]
    rw [hstyle]
    have hred : deriveStyle (some t) [e] [] (some d)
        = filterPrims (elemLayer t d e) := rfl
    rw [hred]
    have hel : elemLayer t d e = mergeTrees d te := by
      simp [elemLayer, hte]
    rw [hel]
    exact lookup_filterPrims_prim _ p v (lookup_mergeTrees_prim _ _ p v hnd hp)
  · intro t d p v w hnd hp hd
    have hred : (resolve (some d) ⟨some t, Option.none⟩ Selector.none).style
        = filterPrims (mergeTrees d (filterPrims t)) := rfl
    rw [hred]
    exact lookup_filterPrims_prim _ p v
      (lookup_mergeTrees_prim _ _ p v (keysNodup_filterPrims t hnd)
        (lookup_filterPrims_prim t p v hp))

/-- Witness for C1: all four precedence parts applied at concrete inputs
where the property "p" is defined in several layers at once. -/
theorem style_precedence_wit :
    lookupTree (resolve (some [("p", StyleVal.prim (Prim.num 1))])
        ⟨some [("&m", StyleVal.tree [("p", StyleVal.prim (Prim.num 2))])],
         Option.none⟩ (Selector.map [("&m", true)])).style "p"
      = some (StyleVal.prim (Prim.num 2))
    ∧ lookupTree (resolve (some [("p", StyleVal.prim (Prim.num 1))])
        ⟨some [("e", StyleVal.tree [("p", StyleVal.prim (Prim.num 2))]),
               ("&m", StyleVal.tree
                  [("e", StyleVal.tree [("p", StyleVal.prim (Prim.num 3))])])],
         Option.none⟩ (Selector.map [("e", true), ("&m", true)])).style "p"
      = some (StyleVal.prim (Prim.num 3))
    ∧ lookupTree (resolve (some [("p", StyleVal.prim (Prim.num 1))])
        ⟨some [("e", StyleVal.tree [("p", StyleVal.prim (Prim.num 2))])],
         Option.none⟩ (Selector.str "e")).style "p"
      = some (StyleVal.prim (Prim.num 2))
    ∧ lookupTree (resolve (some [("p", StyleVal.prim (Prim.num 1))])
        ⟨some [("p", StyleVal.prim (Prim.num 2))], Option.none⟩
        Selector.none).style "p"
      = some (StyleVal.prim (Prim.num 2)) := by
  refine ⟨?_, ?_, ?_, ?_⟩
  · exact style_precedence.1
      [("&m", StyleVal.tree [("p", StyleVal.prim (Prim.num 2))])]
      [("p", StyleVal.prim (Prim.num 1))]
      [("p", StyleVal.prim (Prim.num 2))]
      "&m" "p" (Prim.num 2) (StyleVal.prim (Prim.num 1))
      rfl rfl (by simp [keysNodup]) rfl rfl
  · exact style_precedence.2.1
      [("e", StyleVal.tree [("p", StyleVal.prim (Prim.num 2))]),
       ("&m", StyleVal.tree
          [("e", StyleVal.tree [("p", StyleVal.prim (Prim.num 3))])])]
      [("p", StyleVal.prim (Prim.num 1))]
      [("p", StyleVal.prim (Prim.num 2))]
      [("e", StyleVal.tree [("p", StyleVal.prim (Prim.num 3))])]
      [("p", StyleVal.prim (Prim.num 3))]
      "e" "&m" "p" (Prim.num 3)
      (StyleVal.prim (Prim.num 1)) (StyleVal.prim (Prim.num 2))
      rfl rfl rfl rfl rfl (by simp [keysNodup]) rfl rfl rfl
  · exact style_precedence.2.2.1
      [("e", StyleVal.tree [("p", StyleVal.prim (Prim.num 2))])]
      [("p", StyleVal.prim (Prim.num 1))]
      [("p", StyleVal.prim (Prim.num 2))]
      "e" "p" (Prim.num 2) (StyleVal.prim (Prim.num 1))
      rfl rfl (by simp [keysNodup]) rfl rfl
  · exact style_precedence.2.2.2
      [("p", StyleVal.prim (Prim.num 2))]
      [("p", StyleVal.prim (Prim.num 1))]
      "p" (Prim.num 2) (StyleVal.prim (Prim.num 1))
      (by simp [keysNodup]) rfl rfl
